import Mathlib

/-!
Shallow embedding of the estimation notebook (src/code/chap08ex.ipynb):
the functions RMSE, MeanError, Estimate1 and SimulateGame, with the
pseudo-random generator injected as an explicit stream of draws and the
unbounded while loop of SimulateGame given explicit fuel.
-/

/-- Values of Python float expressions as produced by numpy in this notebook:
either a real value, or the floating NaN that numpy returns (with a runtime
warning, not an exception) for the mean of an empty array or the square root
of a negative number. -/
inductive PyFloat where
  | val : ℝ → PyFloat
  | nan : PyFloat

/-- Embedding of numpy.mean on a list of reals: NaN on the empty list,
otherwise the sum divided by the length. -/
noncomputable def npMean : List ℝ → PyFloat
  | [] => PyFloat.nan
  | x :: xs => PyFloat.val ((x :: xs).sum / (x :: xs).length)

/-- Embedding of numpy.sqrt on one value: NaN propagates, a negative argument
gives NaN, otherwise the real square root. -/
noncomputable def npSqrt : PyFloat → PyFloat
  | PyFloat.nan => PyFloat.nan
  | PyFloat.val x => if x < 0 then PyFloat.nan else PyFloat.val (Real.sqrt x)

/-- The local mse computed inside RMSE in the notebook: numpy.mean of the
list comprehension of squared differences. -/
noncomputable def MSE (estimates : List ℝ) (actual : ℝ) : PyFloat :=
  npMean (estimates.map fun estimate => (estimate - actual) ^ 2)

/-- Embedding of RMSE from the notebook: square both pointwise differences,
take numpy.mean, then numpy.sqrt. -/
noncomputable def RMSE (estimates : List ℝ) (actual : ℝ) : PyFloat :=
  npSqrt (MSE estimates actual)

/-- Embedding of MeanError from the notebook: numpy.mean of the signed
differences. -/
noncomputable def MeanError (estimates : List ℝ) (actual : ℝ) : PyFloat :=
  npMean (estimates.map fun estimate => estimate - actual)

/-- Squaring of a PyFloat value; NaN propagates. -/
noncomputable def pySq : PyFloat → PyFloat
  | PyFloat.val x => PyFloat.val (x ^ 2)
  | PyFloat.nan => PyFloat.nan

/-- Absolute value of a PyFloat value; NaN propagates. -/
noncomputable def pyAbs : PyFloat → PyFloat
  | PyFloat.val x => PyFloat.val |x|
  | PyFloat.nan => PyFloat.nan

/-- The comparison x <= y between PyFloat values; any comparison against NaN
is false, as in IEEE arithmetic. -/
def pyLe : PyFloat → PyFloat → Prop
  | PyFloat.val x, PyFloat.val y => x ≤ y
  | _, _ => False

/-- Embedding of numpy.median: sort the list; for odd length take the middle
element, for even length the average of the two middle elements; NaN on the
empty list. -/
noncomputable def npMedian (xs : List ℝ) : PyFloat :=
  match xs with
  | [] => PyFloat.nan
  | _ :: _ =>
    let s := xs.mergeSort fun a b => decide (a ≤ b)
    let n := s.length
    if n % 2 = 1 then PyFloat.val (s.getD (n / 2) 0)
    else PyFloat.val ((s.getD (n / 2 - 1) 0 + s.getD (n / 2) 0) / 2)

/-- The while True loop of SimulateGame with explicit fuel. The argument i
is the index of the next draw taken from the injected gap stream, goals and
t are the Python locals (a Python int and float). Each iteration draws
time_between_goals, adds it to t, breaks returning goals when t exceeds 1,
and otherwise increments goals and continues. none means the fuel ran out
before the loop broke. -/
noncomputable def simulateGameGo (gaps : ℕ → ℝ) : ℕ → ℕ → ℤ → ℝ → Option ℤ
  | 0, _, _, _ => none
  | fuel + 1, i, goals, t =>
    let time_between_goals := gaps i
    let t2 := t + time_between_goals
    if 1 < t2 then some goals
    else simulateGameGo gaps fuel (i + 1) (goals + 1) t2

/-- Embedding of SimulateGame from the notebook. lam is the goal-scoring
rate; the successive results of random.expovariate applied to lam are injected
as the stream gaps (the i-th draw of this run), and the unbounded while loop
is run on explicit fuel. The loop starts with goals = 0 and t = 0, and the
returned L is the final goals counter. -/
noncomputable def SimulateGame (lam : ℝ) (gaps : ℕ → ℝ) (fuel : ℕ) : Option ℤ :=
  simulateGameGo gaps fuel 0 0 0

/-- Sum of the first n gaps of a stream: the elapsed time t after n loop
iterations of SimulateGame that did not break. -/
noncomputable def gapSum (gaps : ℕ → ℝ) (n : ℕ) : ℝ :=
  ∑ j ∈ Finset.range n, gaps j

/-- The sample xs drawn in trial i of Estimate1: the n consecutive values
that the list comprehension over random.gauss takes from the injected
gaussian stream draws. -/
def sampleAt (draws : ℕ → ℝ) (n i : ℕ) : List ℝ :=
  (List.range n).map fun j => draws (i * n + j)

/-- The for loop of Estimate1: remaining counts the iterations left, i is
the index of the current trial, and means and medians are the two
accumulator lists the Python code appends to. Each iteration draws one
sample xs, computes xbar = numpy.mean of xs and median = numpy.median of xs,
and appends each to its list. -/
noncomputable def estimate1Go (n : ℕ) (draws : ℕ → ℝ) :
    ℕ → ℕ → List PyFloat → List PyFloat → List PyFloat × List PyFloat
  | 0, _, means, medians => (means, medians)
  | remaining + 1, i, means, medians =>
    let xs := sampleAt draws n i
    let xbar := npMean xs
    let median := npMedian xs
    estimate1Go n draws remaining (i + 1) (means ++ [xbar]) (medians ++ [median])

/-- Embedding of Estimate1 from the notebook, returning the two estimate
collections means and medians. The source prints RMSE of each collection
against mu = 0 and returns nothing, so the two collections it builds are the
observable result modelled here. -/
noncomputable def Estimate1 (n iters : ℕ) (draws : ℕ → ℝ) :
    List PyFloat × List PyFloat :=
  estimate1Go n draws iters 0 [] []

theorem npMean_ne_nil (xs : List ℝ) (h : xs ≠ []) :
    npMean xs = PyFloat.val (xs.sum / xs.length) := by
  cases xs with
  | nil => exact absurd rfl h
  | cons x t => simp [npMean]

theorem gapShift (gaps : ℕ → ℝ) (i m : ℕ) :
    ∑ j ∈ Finset.range (m + 1), gaps (i + j)
      = gaps i + ∑ j ∈ Finset.range m, gaps (i + 1 + j) := by
  rw [Finset.sum_range_succ', add_comm]
  congr 1
  exact Finset.sum_congr rfl fun j _ => by rw [show i + (j + 1) = i + 1 + j by omega]

theorem simulateGameGo_crossing (gaps : ℕ → ℝ) :
    ∀ (fuel : ℕ) (d i : ℕ) (goals : ℤ) (t : ℝ),
      d < fuel →
      1 < t + ∑ j ∈ Finset.range (d + 1), gaps (i + j) →
      (∀ l, l < d → t + ∑ j ∈ Finset.range (l + 1), gaps (i + j) ≤ 1) →
      simulateGameGo gaps fuel i goals t = some (goals + d) := by
  intro fuel
  induction fuel with
  | zero => intro d i goals t hd _ _; omega
  | succ f ih =>
    intro d i goals t hd hcross hbefore
    cases d with
    | zero =>
      have h1 : 1 < t + gaps i := by simpa using hcross
      simp [simulateGameGo, h1]
    | succ e =>
      have h0 : t + gaps i ≤ 1 := by simpa using hbefore 0 (Nat.succ_pos e)
      have hstep : simulateGameGo gaps (f + 1) i goals t
          = simulateGameGo gaps f (i + 1) (goals + 1) (t + gaps i) := by
        simp [simulateGameGo, not_lt.2 h0]
      have hc2 : 1 < (t + gaps i) + ∑ j ∈ Finset.range (e + 1), gaps (i + 1 + j) := by
        have h := hcross
        rw [gapShift gaps i (e + 1)] at h
        linarith
      have hb2 : ∀ l, l < e →
          (t + gaps i) + ∑ j ∈ Finset.range (l + 1), gaps (i + 1 + j) ≤ 1 := by
        intro l hl
        have h := hbefore (l + 1) (by omega)
        rw [gapShift gaps i (l + 1)] at h
        linarith
      rw [hstep, ih e (i + 1) (goals + 1) (t + gaps i) (by omega) hc2 hb2]
      congr 1
      omega

theorem simulateGameGo_nonneg (gaps : ℕ → ℝ) :
    ∀ (fuel i : ℕ) (goals : ℤ) (t : ℝ) (k : ℤ),
      0 ≤ goals → simulateGameGo gaps fuel i goals t = some k → 0 ≤ k := by
  intro fuel
  induction fuel with
  | zero => intro i goals t k _ h; simp [simulateGameGo] at h
  | succ f ih =>
    intro i goals t k hg h
    simp only [simulateGameGo] at h
    by_cases hc : 1 < t + gaps i
    · rw [if_pos hc] at h
      obtain rfl : goals = k := Option.some_injective _ h
      exact hg
    · rw [if_neg hc] at h
      exact ih (i + 1) (goals + 1) (t + gaps i) k (by omega) h

theorem simulateGame_first_cross (lam : ℝ) (gaps : ℕ → ℝ) (d : ℕ)
    (hd : 1 < gapSum gaps (d + 1))
    (hmin : ∀ l, l < d → gapSum gaps (l + 1) ≤ 1)
    (fuel : ℕ) (hfuel : d < fuel) :
    SimulateGame lam gaps fuel = some (d : ℤ) := by
  have h := simulateGameGo_crossing gaps fuel d 0 0 0 hfuel ?_ ?_
  · rw [SimulateGame, h]
    simp
  · simpa [gapSum] using hd
  · intro l hl
    simpa [gapSum] using hmin l hl

theorem gapSum_mono (gaps : ℕ → ℝ) (hpos : ∀ i, 0 ≤ gaps i) {a b : ℕ}
    (hab : a ≤ b) : gapSum gaps a ≤ gapSum gaps b :=
  Finset.sum_le_sum_of_subset_of_nonneg (Finset.range_subset.2 hab)
    fun i _ _ => hpos i

theorem gapSum_const (c : ℝ) (n : ℕ) : gapSum (fun _ => c) n = n * c := by
  simp [gapSum, Finset.sum_const, Finset.card_range, nsmul_eq_mul]

theorem mse_val_nonneg (estimates : List ℝ) (actual : ℝ) (h : estimates ≠ []) :
    ∃ m : ℝ, 0 ≤ m ∧ MSE estimates actual = PyFloat.val m := by
  refine ⟨((estimates.map fun estimate => (estimate - actual) ^ 2).sum /
      (estimates.map fun estimate => (estimate - actual) ^ 2).length), ?_, ?_⟩
  · apply div_nonneg
    · apply List.sum_nonneg
      intro y hy
      obtain ⟨e, _, rfl⟩ := List.mem_map.1 hy
      positivity
    · positivity
  · exact npMean_ne_nil _ (by simp [h])

theorem list_two_mul_sum_le (l : List ℝ) (y : ℝ) :
    2 * l.sum * y ≤ (l.map fun x => x ^ 2).sum + l.length * y ^ 2 := by
  induction l with
  | nil => simp
  | cons x t ih =>
    simp only [List.sum_cons, List.map_cons, List.length_cons]
    push_cast
    nlinarith [two_mul_le_add_sq x y, ih]

theorem list_sq_sum_le (l : List ℝ) :
    l.sum ^ 2 ≤ l.length * (l.map fun x => x ^ 2).sum := by
  induction l with
  | nil => simp
  | cons x t ih =>
    simp only [List.sum_cons, List.map_cons, List.length_cons]
    push_cast
    nlinarith [list_two_mul_sum_le t x, ih]

theorem range_succ_map_shift {α : Type} (g : ℕ → α) (r i : ℕ) :
    (List.range (r + 1)).map (fun j => g (i + j))
      = g i :: (List.range r).map fun j => g (i + 1 + j) := by
  rw [List.range_succ_eq_map, List.map_cons, List.map_map]
  congr 1
  exact List.map_congr_left fun a _ => by
    simp only [Function.comp]
    rw [show i + (a + 1) = i + 1 + a by omega]

theorem exists_first_cross (gaps : ℕ → ℝ)
    (hunb : ∀ B : ℝ, ∃ n : ℕ, B < gapSum gaps n) :
    ∃ d : ℕ, 1 < gapSum gaps (d + 1) ∧ ∀ l, l < d → gapSum gaps (l + 1) ≤ 1 := by
  classical
  obtain ⟨n, hn⟩ := hunb 1
  have hex : ∃ d : ℕ, 1 < gapSum gaps (d + 1) := by
    cases n with
    | zero =>
      rw [gapSum] at hn
      norm_num at hn
    | succ m => exact ⟨m, hn⟩
  exact ⟨Nat.find hex, Nat.find_spec hex, fun l hl => not_lt.1 (Nat.find_min hex hl)⟩

theorem gapSum_two_unbounded : ∀ B : ℝ, ∃ n : ℕ, B < gapSum (fun _ => (2:ℝ)) n := by
  intro B
  obtain ⟨n, hn⟩ := exists_nat_gt B
  have h0 : (0:ℝ) ≤ n := Nat.cast_nonneg n
  exact ⟨n, by rw [gapSum_const]; nlinarith⟩

theorem estimate1Go_spec (n : ℕ) (draws : ℕ → ℝ) :
    ∀ (remaining i : ℕ) (means medians : List PyFloat),
      estimate1Go n draws remaining i means medians
        = (means ++ (List.range remaining).map
              fun j => npMean (sampleAt draws n (i + j)),
           medians ++ (List.range remaining).map
              fun j => npMedian (sampleAt draws n (i + j))) := by
  intro remaining
  induction remaining with
  | zero => intro i means medians; simp [estimate1Go]
  | succ r ih =>
    intro i means medians
    simp only [estimate1Go]
    rw [ih (i + 1)]
    rw [range_succ_map_shift (fun m => npMean (sampleAt draws n m)) r i]
    rw [range_succ_map_shift (fun m => npMedian (sampleAt draws n m)) r i]
    simp

/-- C1 counterexample: with every drawn gap exactly 0.5, SimulateGame does
not return 1 (it returns 2: the gaps completing at elapsed times 0.5 and 1.0
are both counted, since 1.0 is not greater than 1). -/
theorem simulateGame_const_half_ne_one :
    SimulateGame 3 (fun _ => (0.5 : ℝ)) 3 ≠ some 1 := by
  have hd : 1 < gapSum (fun _ => (0.5:ℝ)) (2 + 1) := by
    rw [gapSum_const]
    norm_num
  have hmin : ∀ l, l < 2 → gapSum (fun _ => (0.5:ℝ)) (l + 1) ≤ 1 := by
    intro l hl
    rw [gapSum_const]
    have h2 : ((l + 1 : ℕ) : ℝ) ≤ 2 := by exact_mod_cast Nat.succ_le_of_lt hl
    nlinarith
  have h := simulateGame_first_cross 3 (fun _ => (0.5:ℝ)) 2 hd hmin 3 (by omega)
  rw [h]
  norm_num

/-- C1 (amended): for every rate, every gap stream whose every drawn gap is
exactly 0.5, and fuel at least 3, SimulateGame returns exactly 2: the loop
counts the events at elapsed times 0.5 and 1.0 (the boundary 1.0 is not
greater than 1, so the loop continues), and the third gap crosses 1 and is
not counted. -/
theorem simulateGame_const_half_returns_two (lam : ℝ) (gaps : ℕ → ℝ)
    (hgaps : ∀ i, gaps i = 0.5) (fuel : ℕ) (hfuel : 3 ≤ fuel) :
    SimulateGame lam gaps fuel = some 2 := by
  have hg : ∀ m : ℕ, gapSum gaps m = m * 0.5 := by
    intro m
    rw [show gapSum gaps m = gapSum (fun _ => (0.5:ℝ)) m by simp [gapSum, hgaps],
      gapSum_const]
  have hd : 1 < gapSum gaps (2 + 1) := by
    rw [hg]
    norm_num
  have hmin : ∀ l, l < 2 → gapSum gaps (l + 1) ≤ 1 := by
    intro l hl
    rw [hg]
    have h2 : ((l + 1 : ℕ) : ℝ) ≤ 2 := by exact_mod_cast Nat.succ_le_of_lt hl
    nlinarith
  have h := simulateGame_first_cross lam gaps 2 hd hmin fuel (by omega)
  simpa using h

/-- C1 witness: the amended theorem applied to the constant 0.5 stream with
rate 3 and fuel 4. -/
theorem simulateGame_const_half_returns_two_witness :
    SimulateGame 3 (fun _ => (0.5:ℝ)) 4 = some 2 :=
  simulateGame_const_half_returns_two 3 (fun _ => 0.5) (fun _ => rfl) 4 (by omega)

/-- C2: for every rate, every gap stream whose first drawn gap exceeds 1.0,
and any positive fuel, SimulateGame returns 0. -/
theorem simulateGame_first_gap_over_one (lam : ℝ) (gaps : ℕ → ℝ)
    (hgap : 1 < gaps 0) (fuel : ℕ) (hfuel : 1 ≤ fuel) :
    SimulateGame lam gaps fuel = some 0 := by
  have h1 : 1 < gapSum gaps (0 + 1) := by simpa [gapSum] using hgap
  have h := simulateGame_first_cross lam gaps 0 h1
    (fun l hl => absurd hl (Nat.not_lt_zero l)) fuel (by omega)
  simpa using h

/-- C2 witness: the constant gap stream 2 with fuel 1 returns 0. -/
theorem simulateGame_first_gap_over_one_witness :
    SimulateGame 2 (fun _ => (2:ℝ)) 1 = some 0 :=
  simulateGame_first_gap_over_one 2 (fun _ => 2) (by norm_num) 1 le_rfl

/-- C3: for every rate, every gap stream and every fuel, whenever
SimulateGame returns a count it is a non-negative integer; a negative count
is never returned. -/
theorem simulateGame_nonneg (lam : ℝ) (gaps : ℕ → ℝ) (fuel : ℕ) (k : ℤ)
    (h : SimulateGame lam gaps fuel = some k) : 0 ≤ k :=
  simulateGameGo_nonneg gaps fuel 0 0 0 k le_rfl h

/-- C3 witness: the non-negativity theorem applied to a run that returns 0. -/
theorem simulateGame_nonneg_witness :
    SimulateGame 2 (fun _ => (2:ℝ)) 1 = some 0 ∧ (0:ℤ) ≤ 0 := by
  have h1 : 1 < gapSum (fun _ => (2:ℝ)) (0 + 1) := by
    rw [gapSum_const]
    norm_num
  have h : SimulateGame 2 (fun _ => (2:ℝ)) 1 = some ((0:ℕ):ℤ) :=
    simulateGame_first_cross 2 (fun _ => 2) 0 h1
      (fun l hl => absurd hl (Nat.not_lt_zero l)) 1 (by omega)
  have h2 : SimulateGame 2 (fun _ => (2:ℝ)) 1 = some 0 := by simpa using h
  exact ⟨h2, simulateGame_nonneg 2 (fun _ => 2) 1 0 h2⟩

/-- C8: for every positive rate and every gap stream whose gaps are strictly
positive and whose running sums grow without bound, SimulateGame terminates:
some finite fuel makes the loop break and return a count. -/
theorem simulateGame_terminates (lam : ℝ) (gaps : ℕ → ℝ)
    (hpos : ∀ i, 0 < gaps i)
    (hunb : ∀ B : ℝ, ∃ n : ℕ, B < gapSum gaps n) :
    ∃ (fuel : ℕ) (k : ℤ), SimulateGame lam gaps fuel = some k := by
  obtain ⟨d, hd, hmin⟩ := exists_first_cross gaps hunb
  exact ⟨d + 1, (d : ℤ),
    simulateGame_first_cross lam gaps d hd hmin (d + 1) (Nat.lt_succ_self d)⟩

/-- C8 witness: the termination theorem applied to the constant gap stream 2
with rate 2. -/
theorem simulateGame_terminates_witness :
    ∃ (fuel : ℕ) (k : ℤ), SimulateGame 2 (fun _ => (2:ℝ)) fuel = some k :=
  simulateGame_terminates 2 (fun _ => 2) (fun _ => by norm_num)
    gapSum_two_unbounded

/-- C9: for every gap stream of positive gaps with unbounded running sums,
SimulateGame (with enough fuel) returns exactly the largest k such that the
sum of the first k gaps is at most 1; in particular a gap landing exactly on
1.0 is counted and one more gap is drawn after it. -/
theorem simulateGame_largest_count (lam : ℝ) (gaps : ℕ → ℝ)
    (hpos : ∀ i, 0 < gaps i)
    (hunb : ∀ B : ℝ, ∃ n : ℕ, B < gapSum gaps n) :
    ∃ (fuel : ℕ) (k : ℕ), SimulateGame lam gaps fuel = some (k : ℤ) ∧
      gapSum gaps k ≤ 1 ∧ ∀ m : ℕ, gapSum gaps m ≤ 1 → m ≤ k := by
  obtain ⟨d, hd, hmin⟩ := exists_first_cross gaps hunb
  refine ⟨d + 1, d,
    simulateGame_first_cross lam gaps d hd hmin (d + 1) (Nat.lt_succ_self d),
    ?_, ?_⟩
  · rcases Nat.eq_zero_or_pos d with h0 | h0
    · rw [h0, gapSum]
      norm_num
    · obtain ⟨e, rfl⟩ : ∃ e, d = e + 1 := ⟨d - 1, by omega⟩
      exact hmin e (by omega)
  · intro m hm
    by_contra hmk
    push_neg at hmk
    have hmono : gapSum gaps (d + 1) ≤ gapSum gaps m :=
      gapSum_mono gaps (fun i => (hpos i).le) (by omega)
    linarith

/-- C9 witness: the characterization applied to the constant gap stream 2
with rate 2. -/
theorem simulateGame_largest_count_witness :
    ∃ (fuel : ℕ) (k : ℕ),
      SimulateGame 2 (fun _ => (2:ℝ)) fuel = some (k : ℤ) ∧
      gapSum (fun _ => (2:ℝ)) k ≤ 1 ∧
      ∀ m : ℕ, gapSum (fun _ => (2:ℝ)) m ≤ 1 → m ≤ k :=
  simulateGame_largest_count 2 (fun _ => 2) (fun _ => by norm_num)
    gapSum_two_unbounded

/-- C4 counterexample: on an empty estimates list the code does not raise:
numpy.mean of the empty list yields NaN (with a runtime warning only), so
both the mean of squared errors and RMSE return the NaN value. -/
theorem rmse_empty_returns_nan :
    MSE [] 0 = PyFloat.nan ∧ RMSE [] 0 = PyFloat.nan := by
  constructor <;> simp [RMSE, MSE, npMean, npSqrt]

/-- C4 (amended): for every actual value, the mean squared error and RMSE of
the empty estimates collection return NaN rather than raising an error. -/
theorem rmse_empty_nan (actual : ℝ) :
    MSE [] actual = PyFloat.nan ∧ RMSE [] actual = PyFloat.nan := by
  constructor <;> simp [RMSE, MSE, npMean, npSqrt]

/-- C5: for every non-empty estimates collection and every actual value, the
square of RMSE equals the mean of squared differences. -/
theorem rmse_sq_eq_mse (estimates : List ℝ) (actual : ℝ) (h : estimates ≠ []) :
    pySq (RMSE estimates actual) = MSE estimates actual := by
  obtain ⟨m, hm, hmse⟩ := mse_val_nonneg estimates actual h
  rw [RMSE, hmse]
  simp [npSqrt, not_lt.2 hm, pySq, Real.sq_sqrt hm]

/-- C5 witness: the identity at the one-element collection of 1 against 0. -/
theorem rmse_sq_eq_mse_witness : pySq (RMSE [1] 0) = MSE [1] 0 :=
  rmse_sq_eq_mse [1] 0 (by simp)

/-- C6: for every non-empty estimates collection whose every estimate equals
the actual value, MeanError and RMSE both return exactly 0. -/
theorem meanError_rmse_zero (estimates : List ℝ) (actual : ℝ)
    (hne : estimates ≠ []) (hall : ∀ e ∈ estimates, e = actual) :
    MeanError estimates actual = PyFloat.val 0 ∧
      RMSE estimates actual = PyFloat.val 0 := by
  have h1 : (estimates.map fun estimate => estimate - actual).sum = 0 := by
    apply List.sum_eq_zero
    intro y hy
    obtain ⟨e, he, rfl⟩ := List.mem_map.1 hy
    rw [hall e he]
    ring
  have h2 : (estimates.map fun estimate => (estimate - actual) ^ 2).sum = 0 := by
    apply List.sum_eq_zero
    intro y hy
    obtain ⟨e, he, rfl⟩ := List.mem_map.1 hy
    rw [hall e he]
    ring
  constructor
  · rw [MeanError, npMean_ne_nil _ (by simp [hne]), h1, zero_div]
  · rw [RMSE, MSE, npMean_ne_nil _ (by simp [hne]), h2, zero_div]
    simp [npSqrt]

/-- C6 witness: the collection with both estimates equal to the actual
value 3. -/
theorem meanError_rmse_zero_witness :
    MeanError [3, 3] 3 = PyFloat.val 0 ∧ RMSE [3, 3] 3 = PyFloat.val 0 :=
  meanError_rmse_zero [3, 3] 3 (by simp) (fun e he => by simpa using he)

/-- C7: Estimate1 with injected gaussian stream runs iters trials; the i-th
trial draws the single fresh sample of size n at offset i of the stream and
applies both estimators (numpy.mean and numpy.median) to that same sample,
so both resulting collections list exactly those values and have length
exactly iters. -/
theorem estimate1_collections (n iters : ℕ) (draws : ℕ → ℝ) :
    (Estimate1 n iters draws).1
        = ((List.range iters).map fun i => npMean (sampleAt draws n i)) ∧
      (Estimate1 n iters draws).2
        = ((List.range iters).map fun i => npMedian (sampleAt draws n i)) ∧
      (Estimate1 n iters draws).1.length = iters ∧
      (Estimate1 n iters draws).2.length = iters := by
  have h := estimate1Go_spec n draws iters 0 [] []
  refine ⟨?_, ?_, ?_, ?_⟩ <;> simp [Estimate1, h]

/-- C10: for every non-empty estimates collection and every actual value,
RMSE is at least the absolute value of MeanError (and in particular RMSE is
a non-negative value). -/
theorem rmse_ge_abs_mean_error (estimates : List ℝ) (actual : ℝ)
    (h : estimates ≠ []) :
    pyLe (pyAbs (MeanError estimates actual)) (RMSE estimates actual) := by
  have hlen : (0:ℝ) < estimates.length := by
    cases estimates with
    | nil => exact absurd rfl h
    | cons x t =>
      simp only [List.length_cons]
      push_cast
      positivity
  have hmap : (estimates.map fun estimate => (estimate - actual) ^ 2)
      = (estimates.map fun estimate => estimate - actual).map fun x => x ^ 2 := by
    rw [List.map_map]
    rfl
  have hME : MeanError estimates actual
      = PyFloat.val ((estimates.map fun estimate => estimate - actual).sum /
          estimates.length) := by
    rw [MeanError, npMean_ne_nil _ (by simp [h]), List.length_map]
  have hQnn : (0:ℝ) ≤
      ((estimates.map fun estimate => estimate - actual).map fun x => x ^ 2).sum := by
    apply List.sum_nonneg
    intro y hy
    obtain ⟨e, _, rfl⟩ := List.mem_map.1 hy
    positivity
  have hMSE : MSE estimates actual
      = PyFloat.val
          (((estimates.map fun estimate => estimate - actual).map fun x => x ^ 2).sum /
            estimates.length) := by
    rw [MSE, hmap, npMean_ne_nil _ (by simp [h]), List.length_map, List.length_map]
  set S := (estimates.map fun estimate => estimate - actual).sum with hS
  set Q := ((estimates.map fun estimate => estimate - actual).map fun x => x ^ 2).sum
    with hQ
  set N := (estimates.length : ℝ) with hN
  have hQN : (0:ℝ) ≤ Q / N := div_nonneg hQnn hlen.le
  have hRMSE : RMSE estimates actual = PyFloat.val (Real.sqrt (Q / N)) := by
    rw [RMSE, hMSE]
    simp [npSqrt, not_lt.2 hQN]
  rw [hME, hRMSE]
  simp only [pyAbs, pyLe]
  have hCS : S ^ 2 ≤ N * Q := by
    have hcs := list_sq_sum_le (estimates.map fun estimate => estimate - actual)
    rw [List.length_map] at hcs
    exact hcs
  rw [show |S / N| = Real.sqrt ((S / N) ^ 2) from (Real.sqrt_sq_eq_abs _).symm]
  apply Real.sqrt_le_sqrt
  rw [div_pow, div_le_div_iff₀ (pow_pos hlen 2) hlen]
  nlinarith [mul_le_mul_of_nonneg_right hCS hlen.le]

/-- C10 witness: the inequality at the collection 1, 2 against 0. -/
theorem rmse_ge_abs_mean_error_witness :
    pyLe (pyAbs (MeanError [1, 2] 0)) (RMSE [1, 2] 0) :=
  rmse_ge_abs_mean_error [1, 2] 0 (by simp)
